import Mathlib

/-
Shallow embedding of the CX-O session & event cache engine:
  * src/core/danmaku_cache.py  (DanmakuCacheManager, the event log store)
  * src/core/context.py        (ContextManager, the session context store)

Modelling conventions:
  * ISO timestamp strings are abstracted to their parse result `Option Int`:
    `some t` stands for a string that `datetime.fromisoformat` parses to the
    instant `t`, `none` for a string it rejects.  All the code does with such a
    string is parse it and compare the resulting datetimes, so this quotient is
    faithful.
  * The current wall clock (`datetime.now()`) is passed in as an explicit
    `now : Int` parameter.
  * A line of a `.jsonl` log file is either blank (only whitespace), malformed
    (rejected by `json.loads`), or a record line carrying the decoded message.
  * A fallible disk write is modelled by a `writeOk : Bool` parameter:
    `true` means the underlying `open`/`write` succeeds, `false` means it
    raises (fault injection).  An operation returns `Except Unit σ`:
    `Except.error ()` models an exception propagating to the caller.
-/

namespace CXO

/-- Python slice `l[-n:]`.  For `n = 0` Python computes `l[0:] = l`
(`-0 == 0`), otherwise the last `n` elements (all of `l` when `n ≥ |l|`). -/
def pySliceLast (n : Nat) (l : List α) : List α :=
  if n = 0 then l else l.drop (l.length - n)

/-! ## Event log store (src/core/danmaku_cache.py) -/

/-- `DanmakuMessage` dataclass.  `timestamp` is the ISO-string field abstracted
to its parse result; `audit_result` is the result dict abstracted to its
`"allowed"` entry (`none` = empty dict `{}` or a dict without the key,
`some b` = a dict whose `"allowed"` value is the boolean `b`), which is the
only entry the manager ever reads. -/
structure DanmakuMessage where
  id : String
  platform : String
  room_id : String
  username : String
  uid : String
  content : String
  badge_level : Nat := 0
  badge_name : String := ""
  timestamp : Option Int := none
  raw : Bool := true
  audit_status : String := "pending"
  audit_result : Option Bool := none
deriving DecidableEq, Repr

/-- One line of a `.jsonl` log file: blank (skipped by `if line.strip()`),
malformed (makes `json.loads` raise), or a well-formed record line. -/
inductive RawLine where
  | blank : RawLine
  | malformed : RawLine
  | record : DanmakuMessage → RawLine
deriving DecidableEq, Repr

/-- The platform and `since` filters of `get_recent_danmaku`.  A record is kept
unless it fails the platform equality test or both timestamps parse and the
record's time is strictly before `since` (a parse failure on either side hits
`except: pass`, keeping the record).  `platform = none` models an absent or
falsy (empty) platform argument, `since = none` an absent, falsy or
unparseable `since` argument — each of which disables the filter. -/
def passes_filters (platform : Option String) (since : Option Int)
    (d : DanmakuMessage) : Bool :=
  (match platform with
   | some p => d.platform == p
   | none => true)
  && (match since, d.timestamp with
      | some st, some dt => if dt < st then false else true
      | _, _ => true)

/-- The scan loop of `get_recent_danmaku`: iterate the (already reversed,
newest-first) tail lines, skip blank lines, raise on a malformed line
(`json.loads` fails; modelled as `none`, caught by the caller), collect
records passing the filters, and break once `count` records are collected. -/
def scanRecent (c : Nat) (platform : Option String) (since : Option Int) :
    List RawLine → List DanmakuMessage → Option (List DanmakuMessage)
  | [], acc => some acc
  | RawLine.blank :: rest, acc => scanRecent c platform since rest acc
  | RawLine.malformed :: _, _ => none
  | RawLine.record d :: rest, acc =>
    if passes_filters platform since d then
      let acc2 := acc ++ [d]
      if c ≤ acc2.length then some acc2
      else scanRecent c platform since rest acc2
    else scanRecent c platform since rest acc

/-- `DanmakuCacheManager.get_recent_danmaku`.  `count` is clamped to 100, the
last `2 × count` lines are read, scanned newest-first, and the collected list
is reversed once more (`danmaku_list[::-1]`) before being returned.  Any
exception during the scan is caught and turned into `[]`; a missing file is
the empty line list. -/
def get_recent_danmaku (lines : List RawLine) (count : Nat)
    (platform : Option String) (since : Option Int) : List DanmakuMessage :=
  let c := min count 100
  let tail := pySliceLast (c * 2) lines
  match scanRecent c platform since tail.reverse [] with
  | none => []
  | some l => l.reverse

/-- `DanmakuCacheManager.get_danmaku_by_id`: scan the raw log via
`get_recent_danmaku(count=1000, only_raw=True)`; if not found there and
`only_raw` is false, scan the audited log the same way. -/
def get_danmaku_by_id (rawLines auditedLines : List RawLine)
    (danmaku_id : String) (only_raw : Bool) : Option DanmakuMessage :=
  match (get_recent_danmaku rawLines 1000 none none).find?
      (fun d => d.id == danmaku_id) with
  | some d => some d
  | none =>
    if only_raw then none
    else (get_recent_danmaku auditedLines 1000 none none).find?
      (fun d => d.id == danmaku_id)

/-- The two durable log files of the event log store. -/
structure CacheState where
  rawLines : List RawLine
  auditedLines : List RawLine
deriving DecidableEq, Repr

/-- The record as `add_raw_danmaku` rewrites it before appending:
`danmaku.raw = True`, `audit_status = "pending"`, `audit_result = {}`. -/
def rawEntry (d : DanmakuMessage) : DanmakuMessage :=
  { d with raw := true, audit_status := "pending", audit_result := none }

/-- The record as `add_audited_danmaku` rewrites it before appending:
`raw = False`, `audit_status = "approved" if audit_result.get("allowed") else
"rejected"` (Python truthiness: only an `allowed` entry holding a truthy
value yields approved), and the outcome dict attached. -/
def auditedEntry (d : DanmakuMessage) (audit_result : Option Bool) :
    DanmakuMessage :=
  { d with raw := false,
           audit_status := if audit_result = some true then "approved"
                           else "rejected",
           audit_result := audit_result }

/-- Successful-write effect of `add_raw_danmaku`: one line appended to the raw
log. -/
def addRawState (st : CacheState) (d : DanmakuMessage) : CacheState :=
  { st with rawLines := st.rawLines ++ [RawLine.record (rawEntry d)] }

/-- Successful-write effect of `add_audited_danmaku`: one line appended to the
audited log. -/
def addAuditedState (st : CacheState) (d : DanmakuMessage)
    (audit_result : Option Bool) : CacheState :=
  { st with auditedLines :=
      st.auditedLines ++ [RawLine.record (auditedEntry d audit_result)] }

/-- `DanmakuCacheManager.add_raw_danmaku`.  The append is wrapped in
`try/except` whose handler only logs, so a failed write returns normally with
the log unchanged — the caller sees no error either way. -/
def add_raw_danmaku (st : CacheState) (d : DanmakuMessage) (writeOk : Bool) :
    Except Unit CacheState :=
  Except.ok (if writeOk then addRawState st d else st)

/-- `DanmakuCacheManager.add_audited_danmaku`.  Same `try/except`-and-log
shape as `add_raw_danmaku`: a failed write is swallowed. -/
def add_audited_danmaku (st : CacheState) (d : DanmakuMessage)
    (audit_result : Option Bool) (writeOk : Bool) : Except Unit CacheState :=
  Except.ok (if writeOk then addAuditedState st d audit_result else st)

/-- `DanmakuCacheManager.update_audit_result`: look the record up in the raw
log by id; when found, hand it to `add_audited_danmaku`; when not found, log a
warning and do nothing. -/
def update_audit_result (st : CacheState) (danmaku_id : String)
    (audit_result : Option Bool) (writeOk : Bool) : CacheState :=
  match get_danmaku_by_id st.rawLines st.auditedLines danmaku_id true with
  | some d => if writeOk then addAuditedState st d audit_result else st
  | none => st

/-- `DanmakuCacheManager._cleanup_file`.  Lines are read sequentially: blank
lines are dropped, a record line is kept iff its timestamp fails to parse
(`except: keep`) or parses strictly after the cutoff, and a malformed line
makes the unguarded `json.loads` raise, so the rewrite never happens and the
file is left untouched (modelled as `none`). -/
def cleanup_file (cutoff : Int) : List RawLine → Option (List RawLine)
  | [] => some []
  | RawLine.blank :: rest => cleanup_file cutoff rest
  | RawLine.malformed :: _ => none
  | RawLine.record d :: rest =>
    match cleanup_file cutoff rest with
    | none => none
    | some kept =>
      some (if (match d.timestamp with
                | some t => decide (cutoff < t)
                | none => true)
            then RawLine.record d :: kept else kept)

/-- The keep-condition of `_cleanup_file` on one line, as a predicate: a
record survives iff its timestamp does not parse or parses strictly after the
cutoff.  (Blank and malformed lines never reach the rewrite in the cases the
claims quantify over.) -/
def keep_line (cutoff : Int) : RawLine → Bool
  | RawLine.record d =>
    match d.timestamp with
    | some t => decide (cutoff < t)
    | none => true
  | _ => true

/-- The retention predicate as the spec words it: `cleanup` removes exactly
the parse-successful records whose timestamp falls (strictly) before the
cutoff, so a record is kept iff its timestamp does not parse or does not fall
before the cutoff. -/
def spec_cleanup_keep (cutoff : Int) (d : DanmakuMessage) : Bool :=
  match d.timestamp with
  | some t => decide (¬t < cutoff)
  | none => true

/-- The counters of `DanmakuCacheManager.get_statistics`. -/
structure Stats where
  raw_count : Nat
  audited_count : Nat
  approved_count : Nat
  rejected_count : Nat
  pending_count : Nat
deriving DecidableEq, Repr

/-- The audited-log loop of `get_statistics`: skip blank lines, count each
record line and classify it by `audit_status`; `json.loads` on a malformed
line raises with no surrounding `try`, so the exception escapes
`get_statistics` (modelled as `none`). -/
def countAudited : List RawLine → Option (Nat × Nat × Nat)
  | [] => some (0, 0, 0)
  | RawLine.blank :: rest => countAudited rest
  | RawLine.malformed :: _ => none
  | RawLine.record d :: rest =>
    match countAudited rest with
    | none => none
    | some (a, ap, rj) =>
      some (a + 1,
            (if d.audit_status == "approved" then ap + 1 else ap),
            (if d.audit_status == "rejected" then rj + 1 else rj))

/-- `DanmakuCacheManager.get_statistics`.  The raw count is
`sum(1 for _ in f)` — every physical line of the raw file, blank and
malformed ones included — and `pending_count` is set to that same number. -/
def get_statistics (raw audited : List RawLine) : Option Stats :=
  match countAudited audited with
  | none => none
  | some (a, ap, rj) =>
    some { raw_count := raw.length, audited_count := a, approved_count := ap,
           rejected_count := rj, pending_count := raw.length }

/-! ## Session context store (src/core/context.py) -/

/-- A message dict is opaque to the context manager (it only ever appends,
slices and returns them), so it is modelled as an abstract payload. -/
abbrev MessageDict := String

/-- One entry of the `mono_context` list of a session document:
`content`, the ISO `expires_at` string (abstracted to its parse result) and
the informational `rounds` count. -/
structure MonoItem where
  content : String
  expires_at : Option Int
  rounds : Nat := 1
deriving DecidableEq, Repr

/-- The session document written by `save_context`, restricted to the fields
the verified operations read back (`session_id`, `created_at`, `last_active`,
`memory_references` and `metadata` are written but never consulted by the
operations under verification). -/
structure SessionDoc where
  messages : List MessageDict
  mono_context : List MonoItem
deriving DecidableEq, Repr

/-- The dict `_update_cache` stores per session:
`{"data": context, "timestamp": datetime.now()}`. -/
structure CacheEntry where
  data : SessionDoc
  timestamp : Int
deriving DecidableEq, Repr

/-- Python `cached.get("messages", [])` evaluated on a cache entry: the entry
dict has exactly the keys `"data"` and `"timestamp"` (the context document
sits nested under `"data"`), so the `"messages"` lookup misses and the
default `[]` is returned, whatever the entry holds. -/
def CacheEntry.get_messages (_e : CacheEntry) : List MessageDict := []

/-- The constructor parameters of `ContextManager`. -/
structure CtxConfig where
  max_messages : Nat := 40
  cache_ttl : Int := 3600
  max_cache_size : Nat := 100
deriving DecidableEq, Repr

/-- The mutable state of a `ContextManager`: the session files on disk
(`sessions_dir`, keyed by session id), the in-memory cache dict
`_memory_cache` and the recency list `_cache_order`. -/
structure CtxState where
  files : List (String × SessionDoc)
  cache : List (String × CacheEntry)
  order : List String
deriving DecidableEq, Repr

/-- Dict lookup `d.get(k)` / `k in d` on an association list. -/
def lookupA (k : String) : List (String × α) → Option α
  | [] => none
  | (k2, v) :: rest => if k2 = k then some v else lookupA k rest

/-- Dict store `d[k] = v`: overwrite in place if the key exists, otherwise
append (dicts keep insertion order). -/
def setA (k : String) (v : α) : List (String × α) → List (String × α)
  | [] => [(k, v)]
  | (k2, v2) :: rest =>
    if k2 = k then (k, v) :: rest else (k2, v2) :: setA k v rest

/-- Dict removal `d.pop(k, None)`: drop the entry with the key, no-op when
absent (a dict holds each key at most once). -/
def removeA (k : String) (l : List (String × α)) : List (String × α) :=
  l.filter (fun p => !(p.1 == k))

/-- Python `list.remove(x)`: remove the first occurrence.  The source guards
every call with `if x in lst`, so the absent case (here a no-op) is never hit
with an exception. -/
def pyRemove (k : String) : List String → List String
  | [] => []
  | x :: xs => if x = k then xs else x :: pyRemove k xs

/-- The eviction loop of `_update_cache`:
`while len(cache) > max_cache_size: oldest = order.pop(0); cache.pop(oldest)`.
(When the order list runs out while the cache is still oversized the Python
loop spins forever; that state is unreachable because the order list always
carries every cached key, and the model simply stops there.) -/
def evictLoop (maxSz : Nat) :
    List String → List (String × CacheEntry) →
    List String × List (String × CacheEntry)
  | [], cache => ([], cache)
  | o :: rest, cache =>
    if maxSz < cache.length then evictLoop maxSz rest (removeA o cache)
    else (o :: rest, cache)

/-- `ContextManager._update_cache`: store the entry, move the key to the
most-recent end of `_cache_order`, then evict from the least-recent end while
the cache is over capacity. -/
def update_cache (cfg : CtxConfig) (now : Int) (session_id : String)
    (context : SessionDoc) (st : CtxState) : CtxState :=
  let cache1 := setA session_id ⟨context, now⟩ st.cache
  let order1 := pyRemove session_id st.order ++ [session_id]
  let (order2, cache2) := evictLoop cfg.max_cache_size order1 cache1
  { st with cache := cache2, order := order2 }

/-- `ContextManager._is_cache_valid`: the entry is fresh iff the elapsed time
since its timestamp is strictly below `cache_ttl`. -/
def is_cache_valid (cfg : CtxConfig) (now : Int) (e : CacheEntry) : Bool :=
  decide (now - e.timestamp < cfg.cache_ttl)

/-- Successful-write effect of `ContextManager.save_context`: write the
document file, then update the memory cache.  `mono_context = None` (the
default) is persisted as `[]` (`mono_context or []`). -/
def save_context_ok (cfg : CtxConfig) (now : Int) (session_id : String)
    (messages : List MessageDict) (mono_context : Option (List MonoItem))
    (st : CtxState) : CtxState :=
  let context : SessionDoc :=
    { messages := messages, mono_context := mono_context.getD [] }
  let st1 := { st with files := setA session_id context st.files }
  update_cache cfg now session_id context st1

/-- `ContextManager.save_context`.  A failing file write is caught, logged
and re-raised (`raise`), so it surfaces to the caller and the cache is left
untouched. -/
def save_context (cfg : CtxConfig) (now : Int) (session_id : String)
    (messages : List MessageDict) (mono_context : Option (List MonoItem))
    (writeOk : Bool) (st : CtxState) : Except Unit CtxState :=
  if writeOk then
    Except.ok (save_context_ok cfg now session_id messages mono_context st)
  else Except.error ()

/-- `ContextManager.load_context`: on a fresh cache hit return
`cached.get("messages", [])` without touching the state; otherwise read the
session file (absent file → `[]`) and repopulate the cache. -/
def load_context (cfg : CtxConfig) (now : Int) (session_id : String)
    (st : CtxState) : List MessageDict × CtxState :=
  let freshHit :=
    match lookupA session_id st.cache with
    | some e => if is_cache_valid cfg now e then some e else none
    | none => none
  match freshHit with
  | some e => (CacheEntry.get_messages e, st)
  | none =>
    match lookupA session_id st.files with
    | none => ([], st)
    | some context =>
      (context.messages, update_cache cfg now session_id context st)

/-- `ContextManager.append_message`: load, append, trim to the trailing
`max_messages` when over the limit (`messages[-max_messages:]`), save. -/
def append_message (cfg : CtxConfig) (now : Int) (session_id : String)
    (message : MessageDict) (writeOk : Bool) (st : CtxState) :
    Except Unit CtxState :=
  let (messages, st1) := load_context cfg now session_id st
  let messages2 := messages ++ [message]
  let messages3 :=
    if cfg.max_messages < messages2.length then
      pySliceLast cfg.max_messages messages2
    else messages2
  save_context cfg now session_id messages3 none writeOk st1

/-- `ContextManager._load_mono_context`: read the session file directly
(absent or unreadable file → `[]`). -/
def load_mono_context (session_id : String) (st : CtxState) :
    List MonoItem :=
  match lookupA session_id st.files with
  | none => []
  | some context => context.mono_context

/-- Python `datetime.timedelta(rounds=rounds)` as written in
`add_mono_context`.  `timedelta.__new__` accepts only the keyword arguments
`days`, `seconds`, `microseconds`, `milliseconds`, `minutes`, `hours` and
`weeks`; `rounds` is not one of them, so the constructor raises `TypeError`
and no duration is ever produced. -/
def timedelta_rounds (_rounds : Nat) : Except Unit Int :=
  Except.error ()

/-- `ContextManager.add_mono_context`: load the messages and the stored mono
context, compute `expires_at = datetime.now() + timedelta(rounds=rounds)`,
append the new item and save.  There is no `try` around the body, so an
exception from the `timedelta` call propagates to the caller. -/
def add_mono_context (cfg : CtxConfig) (now : Int) (session_id : String)
    (content : String) (rounds : Nat) (writeOk : Bool) (st : CtxState) :
    Except Unit CtxState :=
  let (messages, st1) := load_context cfg now session_id st
  let mono := load_mono_context session_id st1
  match timedelta_rounds rounds with
  | Except.error e => Except.error e
  | Except.ok delta =>
    let expires_at := now + delta
    save_context cfg now session_id messages
      (some (mono ++ [{ content := content, expires_at := some expires_at,
                        rounds := rounds }])) writeOk st1

/-- `ContextManager.get_mono_context`: read the stored mono context and keep,
in order, the content of every item whose `expires_at` parses and is strictly
later than now (`fromisoformat` failures hit `except: pass` and the item is
skipped). -/
def get_mono_context (now : Int) (session_id : String) (st : CtxState) :
    List String :=
  (load_mono_context session_id st).filterMap fun item =>
    match item.expires_at with
    | some e => if now < e then some item.content else none
    | none => none

/-! ## Auxiliary predicates and concrete scenario data -/

/-- Validity predicate of a mono-context item as `get_mono_context` and
`clear_expired_mono` test it: the expiry string parses and lies strictly
after now. -/
def mono_valid (now : Int) (item : MonoItem) : Bool :=
  match item.expires_at with
  | some e => decide (now < e)
  | none => false

/-- Whether a log line is a well-formed record line. -/
def is_record_line : RawLine → Bool
  | RawLine.record _ => true
  | _ => false

/-- One `put` of the session store's bounded memory cache: `save_context`
with an empty message list and no mono context, writes succeeding. -/
def putKey (cfg : CtxConfig) (now : Int) (st : CtxState) (k : String) :
    CtxState :=
  save_context_ok cfg now k [] none st

/-- A sequence of cache `put`s of distinct keys, starting from a fresh
manager. -/
def foldPuts (cfg : CtxConfig) (now : Int) (keys : List String) : CtxState :=
  keys.foldl (putKey cfg now) ⟨[], [], []⟩

/-- The session document every `putKey` stores. -/
def putDoc : SessionDoc := ⟨[], []⟩

/-- The cache entry every `putKey` stores. -/
def constEntry (now : Int) : CacheEntry := ⟨putDoc, now⟩

/-- The manager state after `put`s of the given keys, when no eviction has
triggered: every key on disk, in cache, and in the recency list, in
insertion order. -/
def stOf (now : Int) (keys : List String) : CtxState :=
  ⟨keys.map fun k => (k, putDoc),
   keys.map fun k => (k, constEntry now),
   keys⟩

/-- Unwrap a successful operation result, keeping the old state on error
(only ever applied to successful calls below). -/
def exceptD (st : CtxState) : Except Unit CtxState → CtxState
  | Except.ok s => s
  | Except.error _ => st

/-- Concrete record: id "a", timestamp 1. -/
def dmA : DanmakuMessage :=
  { id := "a", platform := "live", room_id := "1", username := "u1",
    uid := "7", content := "first", timestamp := some 1 }

/-- Concrete record: id "b", timestamp 2 (written after `dmA`). -/
def dmB : DanmakuMessage :=
  { id := "b", platform := "live", room_id := "1", username := "u2",
    uid := "8", content := "second", timestamp := some 2 }

/-- Concrete record with a timestamp strictly before cutoff 0. -/
def dmOld : DanmakuMessage :=
  { id := "old", platform := "live", room_id := "1", username := "u3",
    uid := "9", content := "stale", timestamp := some (-1) }

/-- Concrete record whose timestamp string does not parse. -/
def dmNoTs : DanmakuMessage :=
  { id := "nots", platform := "live", room_id := "1", username := "u4",
    uid := "10", content := "odd", timestamp := none }

/-- Concrete record whose timestamp equals the cleanup cutoff exactly. -/
def dmAtCutoff : DanmakuMessage :=
  { id := "edge", platform := "live", room_id := "1", username := "u5",
    uid := "11", content := "boundary", timestamp := some 0 }

/-- Concrete target record for the `get_danmaku_by_id` tail-window scenario. -/
def dmT : DanmakuMessage :=
  { id := "t", platform := "live", room_id := "1", username := "u6",
    uid := "12", content := "wanted", timestamp := some 0 }

/-- Concrete filler record with a different id. -/
def dmX : DanmakuMessage :=
  { id := "x", platform := "live", room_id := "1", username := "u7",
    uid := "13", content := "filler", timestamp := some 0 }

/-- A raw log whose first line is the target record, followed by 200 newer
filler lines: the target lies outside the 200-line tail that
`get_recent_danmaku` reads at the 100 clamp. -/
def c10log : List RawLine :=
  RawLine.record dmT :: List.replicate 200 (RawLine.record dmX)

/-- Context configuration for the sliding-window scenario:
`max_messages = 2`. -/
def cfg5 : CtxConfig := { max_messages := 2, cache_ttl := 3600,
                          max_cache_size := 100 }

/-- State after `append_message("s", "m1")` on a fresh manager. -/
def st5a : CtxState := exceptD ⟨[], [], []⟩
  (append_message cfg5 0 "s" "m1" true ⟨[], [], []⟩)

/-- State after a further `append_message("s", "m2")`. -/
def st5b : CtxState := exceptD st5a (append_message cfg5 0 "s" "m2" true st5a)

/-- State after a further `append_message("s", "m3")`. -/
def st5c : CtxState := exceptD st5b (append_message cfg5 0 "s" "m3" true st5b)

/-- Context configuration for the LRU counterexample: capacity `C = 2`. -/
def cfg9 : CtxConfig := { max_messages := 40, cache_ttl := 3600,
                          max_cache_size := 2 }

/-- `put("a")` on a fresh manager with capacity 2. -/
def st9a : CtxState := putKey cfg9 0 ⟨[], [], []⟩ "a"

/-- then `put("b")`. -/
def st9b : CtxState := putKey cfg9 0 st9a "b"

/-- then `get("a")` — a fresh cache hit (its returned state). -/
def st9c : CtxState := (load_context cfg9 0 "a" st9b).2

/-- then `put("c")`, which overflows the capacity and evicts. -/
def st9d : CtxState := putKey cfg9 0 st9c "c"

/-- A session document with one live mono item (expires at 5), one expired
item (expires at 2) and one with an unparseable expiry, queried at time 3. -/
def doc8 : SessionDoc :=
  ⟨["mm"], [⟨"keep", some 5, 1⟩, ⟨"gone", some 2, 1⟩, ⟨"odd", none, 1⟩]⟩

/-- A manager state holding `doc8` on disk for session "s". -/
def st8 : CtxState := ⟨[("s", doc8)], [], []⟩

/-- A manager state holding a fresh cache entry for session "s". -/
def st9w : CtxState := ⟨[], [("s", constEntry 0)], ["s"]⟩

/-! ## Theorems -/

/-- C1: `add_mono_context` never completes: the expiry computation
`datetime.now() + timedelta(rounds=rounds)` raises `TypeError` on every call
(`rounds` is not a `timedelta` keyword argument), before any `MonoItem` is
appended and before `save_context` runs, so the exception propagates to the
caller for every session id, content and rounds count. -/
theorem add_mono_context_always_raises (cfg : CtxConfig) (now : Int)
    (session_id : String) (content : String) (rounds : Nat) (writeOk : Bool)
    (st : CtxState) :
    add_mono_context cfg now session_id content rounds writeOk st
      = Except.error () := by
  unfold add_mono_context
  split
  rfl

/-- C2 counterexample: a raw log holding one valid record (`dmA`) and one
malformed line.  The claim says `recent` with a large count returns exactly
the one valid record and `statistics` counts exactly one raw record; in the
code the single `try` around the whole scan turns the `json.loads` failure
into an empty result, and `statistics` counts every physical raw line
(malformed ones included), reporting 2. -/
theorem recent_malformed_blanks_feed_cex :
    get_recent_danmaku [RawLine.record dmA, RawLine.malformed] 10 none none
      = []
    ∧ get_recent_danmaku [RawLine.record dmA, RawLine.malformed] 10 none none
      ≠ [dmA]
    ∧ get_statistics [RawLine.record dmA, RawLine.malformed] []
      = some ⟨2, 0, 0, 0, 2⟩ := by decide

/-- C3 counterexample: with a failing disk append, `add_raw_danmaku` and
`add_audited_danmaku` return normally with the logs unchanged (the handler
only logs), so the caller never sees the durability failure — contradicting
the claim that write failures propagate out of every write operation of
either store. -/
theorem add_raw_swallows_write_failure_cex :
    add_raw_danmaku ⟨[], []⟩ dmA false = Except.ok ⟨[], []⟩
    ∧ add_raw_danmaku ⟨[], []⟩ dmA false ≠ Except.error ()
    ∧ add_audited_danmaku ⟨[], []⟩ dmA (some true) false = Except.ok ⟨[], []⟩
    ∧ add_audited_danmaku ⟨[], []⟩ dmA (some true) false ≠ Except.error () :=
  ⟨rfl, fun h => Except.noConfusion h, rfl, fun h => Except.noConfusion h⟩

/-- C3 amended: a disk write failure propagates out of the session store's
`save_context` (and hence out of `append_message`), but the event log store's
`add_raw_danmaku` and `add_audited_danmaku` catch it, log it and return
normally with the log unchanged — for those two the lost write is not
observable to the caller. -/
theorem write_failure_propagation_amended (cfg : CtxConfig) (now : Int)
    (session_id : String) (messages : List MessageDict)
    (mono : Option (List MonoItem)) (message : MessageDict) (st : CtxState)
    (st2 : CacheState) (d : DanmakuMessage) (ar : Option Bool) :
    save_context cfg now session_id messages mono false st = Except.error ()
    ∧ append_message cfg now session_id message false st = Except.error ()
    ∧ add_raw_danmaku st2 d false = Except.ok st2
    ∧ add_audited_danmaku st2 d ar false = Except.ok st2 := by
  refine ⟨rfl, ?_, rfl, rfl⟩
  unfold append_message
  split
  rfl

/-- C4: with records `dmA` (timestamp 1) then `dmB` (timestamp 2) in the raw
log, `get_recent_danmaku` returns `[dmA, dmB]` — oldest first.  The scan
collects newest-first and the final `danmaku_list[::-1]` reverses it again,
contradicting the claim (and the function's own docstring) that the result is
ordered newest first. -/
theorem get_recent_returns_oldest_first :
    get_recent_danmaku [RawLine.record dmA, RawLine.record dmB] 10 none none
      = [dmA, dmB]
    ∧ dmA.timestamp = some 1
    ∧ dmB.timestamp = some 2
    ∧ [dmA, dmB] ≠ [dmB, dmA] := by decide

/-- C5: with `max_messages = 2`, appending "m1", "m2", "m3" to session "s"
and loading afterwards yields `[]`, not the trailing window `["m2", "m3"]`;
even the durable file holds only `["m3"]`.  The cache-hit path of
`load_context` reads `cached.get("messages", [])` while `_update_cache`
nests the document under the `"data"` key, so every load after the first
save returns the `[]` default and each append persists only its own
message. -/
theorem append_window_lost_via_cache :
    append_message cfg5 0 "s" "m3" true st5b = Except.ok st5c
    ∧ (load_context cfg5 0 "s" st5c).1 = []
    ∧ (load_context cfg5 0 "s" st5c).1 ≠ ["m2", "m3"]
    ∧ (lookupA "s" st5c.files).map SessionDoc.messages = some ["m3"] :=
  ⟨rfl, by decide, by decide, by decide⟩

/-- C7 counterexample: a record whose timestamp equals the cutoff exactly.
It does not fall before the cutoff, so the claim's "removes exactly those
whose timestamp … falls before the cutoff" keeps it (`spec_cleanup_keep`),
but `_cleanup_file` keeps only strictly-after timestamps and drops it. -/
theorem cleanup_boundary_cex :
    cleanup_file 0 [RawLine.record dmAtCutoff] = some []
    ∧ spec_cleanup_keep 0 dmAtCutoff = true
    ∧ dmAtCutoff.timestamp = some 0 := by decide

/-- C9 counterexample: capacity 2; `put a`, `put b`, then a fresh-hit
`get a`, then `put c`.  The fresh hit returns without touching
`_cache_order` (the state is unchanged), so the eviction triggered by
`put c` removes `a` — the front of the order list — although `b` is the key
least recently put or get-confirmed-fresh.  The claim's prediction that the
fresh-hit moves `a` to the most-recent end (so that `b` is evicted) fails. -/
theorem lru_fresh_hit_no_refresh_cex :
    (load_context cfg9 0 "a" st9b).2 = st9b
    ∧ st9b.order = ["a", "b"]
    ∧ st9c.order = ["a", "b"]
    ∧ lookupA "a" st9d.cache = none
    ∧ (lookupA "b" st9d.cache).isSome = true
    ∧ (lookupA "c" st9d.cache).isSome = true := by decide

set_option maxRecDepth 8192 in
/-- C10: a raw log whose first line is the target record "t" followed by 200
filler lines.  `get_danmaku_by_id` asks `get_recent_danmaku` for 1000
records, but the count is clamped to 100 and only the last 200 lines are
read, so the lookup reports `none` although the record is present in the
durable log. -/
theorem by_id_misses_outside_tail :
    get_danmaku_by_id c10log [] "t" true = none
    ∧ RawLine.record dmT ∈ c10log
    ∧ dmT.id = "t" := by
  refine ⟨by decide, List.mem_cons_self _ _, rfl⟩

/-- Helper: the item filter of `get_mono_context` is the `mono_valid` filter
followed by the content projection. -/
theorem filterMap_mono_eq (now : Int) (l : List MonoItem) :
    (l.filterMap fun item =>
      match item.expires_at with
      | some e => if now < e then some item.content else none
      | none => none)
    = (l.filter (mono_valid now)).map MonoItem.content := by
  induction l with
  | nil => rfl
  | cons it rest ih =>
    cases h : it.expires_at with
    | none =>
      simp [List.filterMap_cons, List.filter_cons, mono_valid, h, ih]
    | some e =>
      by_cases he : now < e
      · simp [List.filterMap_cons, List.filter_cons, mono_valid, h, he, ih]
      · simp [List.filterMap_cons, List.filter_cons, mono_valid, h, he, ih]

/-- C8: for a stored session document, `get_mono_context` returns exactly the
contents of the items whose expiry parses and lies strictly after the query
time (`mono_valid`), preserving insertion order and projecting to content
strings only — so an item expiring at `t0 + Δ` is included at any query time
strictly before `t0 + Δ` and excluded at or after it. -/
theorem mono_expiry_filter (now : Int) (session_id : String) (st : CtxState)
    (doc : SessionDoc) (h : lookupA session_id st.files = some doc) :
    get_mono_context now session_id st
      = (doc.mono_context.filter (mono_valid now)).map MonoItem.content := by
  unfold get_mono_context load_mono_context
  rw [h]
  exact filterMap_mono_eq now doc.mono_context

/-- C8 witness: at time 3 on `doc8`, the item expiring at 5 is kept, the one
expiring at 2 and the unparseable one are excluded. -/
theorem mono_expiry_filter_witness :
    lookupA "s" st8.files = some doc8
    ∧ (get_mono_context 3 "s" st8
        = (doc8.mono_context.filter (mono_valid 3)).map MonoItem.content)
    ∧ get_mono_context 3 "s" st8 = ["keep"] :=
  ⟨by decide, mono_expiry_filter 3 "s" st8 doc8 (by decide), by decide⟩

/-- C6: after `add_raw(d)` then `add_audited(d, outcome)`, the raw log still
ends with the raw entry exactly as written (status pending, empty result,
same content) — appends never mutate or delete it — and the audited log
gains a new entry with the outcome attached and status approved/rejected by
`outcome.allowed`; `update_audit_result` performs exactly the same audited
append when the id lookup finds the record. -/
theorem raw_audited_independence (st : CacheState) (d : DanmakuMessage)
    (ar : Option Bool)
    (h : get_danmaku_by_id (addRawState st d).rawLines
          (addRawState st d).auditedLines d.id true = some (rawEntry d)) :
    (addAuditedState (addRawState st d) d ar).rawLines
        = st.rawLines ++ [RawLine.record (rawEntry d)]
    ∧ (rawEntry d).audit_status = "pending"
    ∧ (rawEntry d).audit_result = none
    ∧ (rawEntry d).content = d.content
    ∧ (addAuditedState (addRawState st d) d ar).auditedLines
        = st.auditedLines ++ [RawLine.record (auditedEntry d ar)]
    ∧ (auditedEntry d ar).audit_status
        = (if ar = some true then "approved" else "rejected")
    ∧ (auditedEntry d ar).audit_result = ar
    ∧ (auditedEntry d ar).content = d.content
    ∧ update_audit_result (addRawState st d) d.id ar true
        = addAuditedState (addRawState st d) (rawEntry d) ar := by
  refine ⟨rfl, rfl, rfl, rfl, rfl, rfl, rfl, rfl, ?_⟩
  unfold update_audit_result
  rw [h]
  rfl

/-- C6 witness: the concrete record `dmA` on an empty store, with an allowing
outcome. -/
theorem raw_audited_independence_witness :
    (get_danmaku_by_id (addRawState ⟨[], []⟩ dmA).rawLines
        (addRawState ⟨[], []⟩ dmA).auditedLines dmA.id true
      = some (rawEntry dmA))
    ∧ ((addAuditedState (addRawState ⟨[], []⟩ dmA) dmA (some true)).rawLines
        = ([] : List RawLine) ++ [RawLine.record (rawEntry dmA)]
      ∧ (rawEntry dmA).audit_status = "pending"
      ∧ (rawEntry dmA).audit_result = none
      ∧ (rawEntry dmA).content = dmA.content
      ∧ (addAuditedState (addRawState ⟨[], []⟩ dmA) dmA
            (some true)).auditedLines
        = ([] : List RawLine)
            ++ [RawLine.record (auditedEntry dmA (some true))]
      ∧ (auditedEntry dmA (some true)).audit_status
          = (if (some true : Option Bool) = some true then "approved"
             else "rejected")
      ∧ (auditedEntry dmA (some true)).audit_result = some true
      ∧ (auditedEntry dmA (some true)).content = dmA.content
      ∧ update_audit_result (addRawState ⟨[], []⟩ dmA) dmA.id (some true) true
          = addAuditedState (addRawState ⟨[], []⟩ dmA) (rawEntry dmA)
              (some true)) :=
  ⟨by decide, raw_audited_independence ⟨[], []⟩ dmA (some true) (by decide)⟩

/-- C7 amended: on a file of well-formed record lines, `_cleanup_file`
rewrites the file to exactly the lines passing `keep_line`: records whose
timestamp fails to parse are kept, and records with a parsed timestamp are
kept iff it is strictly after the cutoff (so every record with timestamp at
or before the cutoff — the boundary instant included — is removed). -/
theorem cleanup_filter_amended (cutoff : Int) (lines : List RawLine)
    (h : lines.all is_record_line = true) :
    cleanup_file cutoff lines = some (lines.filter (keep_line cutoff)) := by
  induction lines with
  | nil => rfl
  | cons l rest ih =>
    rw [List.all_cons, Bool.and_eq_true] at h
    obtain ⟨h1, h2⟩ := h
    cases l with
    | blank => exact absurd h1 (by simp [is_record_line])
    | malformed => exact absurd h1 (by simp [is_record_line])
    | record d =>
      simp only [cleanup_file, ih h2, List.filter_cons]
      cases ht : d.timestamp with
      | none => simp [keep_line, ht]
      | some t =>
        by_cases hc : cutoff < t
        · simp [keep_line, ht, hc]
        · simp [keep_line, ht, hc]

/-- C7 amended witness: cutoff 0 on a log holding a record inside the window
(timestamp 2), a stale record (timestamp -1) and one with an unparseable
timestamp; the stale one is removed, the other two kept. -/
theorem cleanup_filter_amended_witness :
    ([RawLine.record dmB, RawLine.record dmOld,
        RawLine.record dmNoTs].all is_record_line = true)
    ∧ cleanup_file 0 [RawLine.record dmB, RawLine.record dmOld,
        RawLine.record dmNoTs]
      = some ([RawLine.record dmB, RawLine.record dmOld,
          RawLine.record dmNoTs].filter (keep_line 0))
    ∧ cleanup_file 0 [RawLine.record dmB, RawLine.record dmOld,
        RawLine.record dmNoTs]
      = some [RawLine.record dmB, RawLine.record dmNoTs] :=
  ⟨by decide, cleanup_filter_amended 0 _ (by decide), by decide⟩

/-- Helper: a list no longer than `n` is its own Python tail slice
`l[-n:]`. -/
theorem pySliceLast_of_le (n : Nat) (l : List α) (h : l.length ≤ n) :
    pySliceLast n l = l := by
  unfold pySliceLast
  split
  · rfl
  · rw [Nat.sub_eq_zero_of_le h, List.drop_zero]

/-- Helper: the scan of `get_recent_danmaku` raises (returns `none`) whenever
it reaches a malformed line before collecting `c` records — here, with no
filters, after a run of record lines too short to fill the quota. -/
theorem scanRecent_hits_malformed (c : Nat) (rest : List RawLine) :
    ∀ (ws : List DanmakuMessage) (acc : List DanmakuMessage),
      acc.length + ws.length < c →
      scanRecent c none none
        (ws.map RawLine.record ++ RawLine.malformed :: rest) acc = none := by
  intro ws
  induction ws with
  | nil => intro acc _; rfl
  | cons w ws ih =>
    intro acc h
    rw [List.map_cons, List.cons_append]
    have hpass : passes_filters none none w = true := rfl
    simp only [scanRecent, hpass, if_true]
    rw [if_neg]
    · exact ih (acc ++ [w]) (by simp at h ⊢; omega)
    · simp at h ⊢; omega

/-- Helper: a malformed line anywhere in the audited log makes the
statistics loop raise. -/
theorem countAudited_malformed (l1 l2 : List RawLine) :
    countAudited (l1 ++ RawLine.malformed :: l2) = none := by
  induction l1 with
  | nil => rfl
  | cons l rest ih =>
    cases l with
    | blank => simpa [countAudited] using ih
    | malformed => rfl
    | record d => simp [countAudited, ih]

/-- C2 amended: one malformed line in the scanned tail, reached before the
requested count is filled, makes `get_recent_danmaku` return the empty list
(the whole read is aborted, not just the bad line); `get_statistics` counts
every physical raw line — malformed lines included — rather than the valid
records, and raises on a malformed audited line. -/
theorem recent_malformed_amended (pre : List RawLine)
    (vs : List DanmakuMessage) (count : Nat) (raw l1 l2 : List RawLine)
    (hlen : (pre ++ RawLine.malformed :: vs.map RawLine.record).length
      ≤ min count 100 * 2)
    (hvs : vs.length < min count 100) :
    get_recent_danmaku (pre ++ RawLine.malformed :: vs.map RawLine.record)
      count none none = []
    ∧ get_statistics raw []
      = some ⟨raw.length, 0, 0, 0, raw.length⟩
    ∧ get_statistics [] (l1 ++ RawLine.malformed :: l2) = none := by
  refine ⟨?_, rfl, ?_⟩
  · simp only [get_recent_danmaku]
    rw [pySliceLast_of_le _ _ hlen]
    have hrev : (pre ++ RawLine.malformed :: vs.map RawLine.record).reverse
        = vs.reverse.map RawLine.record
            ++ RawLine.malformed :: pre.reverse := by
      simp [List.reverse_append]
    rw [hrev, scanRecent_hits_malformed (min count 100) pre.reverse
      vs.reverse [] (by simpa using hvs)]
  · simp [get_statistics, countAudited_malformed]

/-- C2 amended witness: the oldest line malformed, one valid record after it,
count 10: `recent` yields `[]`; a single malformed raw line is counted as a
raw record; a lone malformed audited line makes `statistics` raise. -/
theorem recent_malformed_amended_witness :
    get_recent_danmaku [RawLine.malformed, RawLine.record dmA] 10 none none
      = []
    ∧ get_statistics [RawLine.malformed] [] = some ⟨1, 0, 0, 0, 1⟩
    ∧ get_statistics [] [RawLine.malformed] = none :=
  recent_malformed_amended [] [dmA] 10 [RawLine.malformed] [] []
    (by decide) (by decide)

/-- Helper: dict lookup misses on a constant-valued key map without the
key. -/
theorem lookupA_map_const_of_not_mem (v : α) (keys : List String)
    (k : String) (h : k ∉ keys) :
    lookupA k (keys.map fun x => (x, v)) = none := by
  induction keys with
  | nil => rfl
  | cons a rest ih =>
    have hne : a ≠ k := by
      rintro rfl
      exact h (List.mem_cons_self a rest)
    rw [List.map_cons, lookupA, if_neg hne]
    exact ih fun hm => h (List.mem_cons_of_mem _ hm)

/-- Helper: dict lookup hits on a constant-valued key map with the key. -/
theorem lookupA_map_const_of_mem (v : α) (keys : List String) (k : String)
    (h : k ∈ keys) :
    lookupA k (keys.map fun x => (x, v)) = some v := by
  induction keys with
  | nil => cases h
  | cons a rest ih =>
    rw [List.map_cons, lookupA]
    by_cases hak : a = k
    · rw [if_pos hak]
    · rw [if_neg hak]
      exact ih ((List.mem_cons.mp h).resolve_left fun e => hak e.symm)

/-- Helper: storing an absent key appends the pair at the end. -/
theorem setA_of_lookup_none (v : α) (l : List (String × α)) (k : String)
    (h : lookupA k l = none) : setA k v l = l ++ [(k, v)] := by
  induction l with
  | nil => rfl
  | cons p rest ih =>
    obtain ⟨k2, v2⟩ := p
    rw [lookupA] at h
    by_cases hk : k2 = k
    · rw [if_pos hk] at h
      cases h
    · rw [if_neg hk] at h
      rw [setA, if_neg hk, ih h, List.cons_append]

/-- Helper: popping the key at the head of the dict. -/
theorem removeA_cons_self (k : String) (v : α) (l : List (String × α)) :
    removeA k ((k, v) :: l) = removeA k l := by
  simp [removeA]

/-- Helper: popping an absent key is a no-op. -/
theorem removeA_of_lookup_none (l : List (String × α)) (k : String)
    (h : lookupA k l = none) : removeA k l = l := by
  induction l with
  | nil => rfl
  | cons p rest ih =>
    obtain ⟨k2, v2⟩ := p
    rw [lookupA] at h
    by_cases hk : k2 = k
    · rw [if_pos hk] at h
      cases h
    · rw [if_neg hk] at h
      simp only [removeA, List.filter_cons]
      rw [if_pos (by simpa using hk)]
      have := ih h
      simp only [removeA] at this
      rw [this]

/-- Helper: lookup misses on an append iff it misses on both parts. -/
theorem lookupA_append_none (l1 l2 : List (String × α)) (k : String)
    (h1 : lookupA k l1 = none) (h2 : lookupA k l2 = none) :
    lookupA k (l1 ++ l2) = none := by
  induction l1 with
  | nil => exact h2
  | cons p rest ih =>
    obtain ⟨k2, v2⟩ := p
    rw [lookupA] at h1
    by_cases hk : k2 = k
    · rw [if_pos hk] at h1
      cases h1
    · rw [if_neg hk] at h1
      rw [List.cons_append, lookupA, if_neg hk]
      exact ih h1

/-- Helper: `list.remove` of an absent element is a no-op. -/
theorem pyRemove_of_not_mem (l : List String) (k : String) (h : k ∉ l) :
    pyRemove k l = l := by
  induction l with
  | nil => rfl
  | cons a rest ih =>
    have hne : a ≠ k := by
      rintro rfl
      exact h (List.mem_cons_self a rest)
    rw [pyRemove, if_neg hne, ih fun hm => h (List.mem_cons_of_mem _ hm)]

/-- Helper: the eviction loop does nothing while the cache is within
capacity. -/
theorem evictLoop_of_le (maxSz : Nat) (order : List String)
    (cache : List (String × CacheEntry)) (h : cache.length ≤ maxSz) :
    evictLoop maxSz order cache = (order, cache) := by
  cases order with
  | nil => rfl
  | cons o rest => rw [evictLoop, if_neg (Nat.not_lt.mpr h)]

/-- Helper: a `put` of a fresh key within capacity appends the key at the
most-recent end everywhere, evicting nothing. -/
theorem putKey_no_evict (cfg : CtxConfig) (now : Int) (keys : List String)
    (k : String) (hk : k ∉ keys)
    (hsz : keys.length + 1 ≤ cfg.max_cache_size) :
    putKey cfg now (stOf now keys) k = stOf now (keys ++ [k]) := by
  simp only [putKey, save_context_ok, update_cache, stOf]
  rw [setA_of_lookup_none _ _ _ (lookupA_map_const_of_not_mem putDoc keys k hk),
    setA_of_lookup_none _ _ _
      (lookupA_map_const_of_not_mem (constEntry now) keys k hk),
    pyRemove_of_not_mem _ _ hk,
    evictLoop_of_le _ _ _ (by simpa using hsz)]
  simp [putDoc, constEntry]

/-- Helper: folding `put`s of fresh distinct keys over a no-eviction run
extends the state key list in insertion order. -/
theorem foldPuts_from (cfg : CtxConfig) (now : Int) :
    ∀ (keys L : List String), (L ++ keys).Nodup →
      (L ++ keys).length ≤ cfg.max_cache_size →
      keys.foldl (putKey cfg now) (stOf now L) = stOf now (L ++ keys) := by
  intro keys
  induction keys with
  | nil =>
    intro L _ _
    simp
  | cons k ks ih =>
    intro L hnd hlen
    have hkL : k ∉ L := by
      intro hmem
      rw [List.nodup_append] at hnd
      exact hnd.2.2 hmem (List.mem_cons_self k ks)
    have hsz : L.length + 1 ≤ cfg.max_cache_size := by
      simp only [List.length_append, List.length_cons] at hlen
      omega
    rw [List.foldl_cons, putKey_no_evict cfg now L k hkL hsz]
    have heq : L ++ k :: ks = (L ++ [k]) ++ ks :=
      (List.append_assoc L [k] ks).symm
    rw [heq] at hnd hlen ⊢
    exact ih (L ++ [k]) hnd hlen

/-- Helper: the single eviction pass of an over-capacity `put`: with the
first-inserted key at the front of the recency order and a cache one entry
over capacity, the loop removes exactly that key's entry and stops. -/
theorem evict_final (now : Int) (C : Nat) (k0 kl : String)
    (mid : List String) (v : CacheEntry)
    (hk0mid : k0 ∉ mid) (hk0kl : ¬kl = k0) (hC : mid.length + 1 = C) :
    evictLoop C ((k0 :: mid) ++ [kl])
      ((List.map (fun x => (x, constEntry now)) (k0 :: mid)) ++ [(kl, v)])
      = (mid ++ [kl],
         (List.map (fun x => (x, constEntry now)) mid) ++ [(kl, v)]) := by
  have hrm : removeA k0
      ((List.map (fun x => (x, constEntry now)) mid) ++ [(kl, v)])
      = (List.map (fun x => (x, constEntry now)) mid) ++ [(kl, v)] := by
    refine removeA_of_lookup_none _ _ ?_
    refine lookupA_append_none _ _ _
      (lookupA_map_const_of_not_mem _ _ _ hk0mid) ?_
    rw [lookupA, if_neg hk0kl]
    rfl
  have hcond : C < ((k0, constEntry now) ::
      ((List.map (fun x => (x, constEntry now)) mid) ++ [(kl, v)])).length := by
    simp only [List.length_cons, List.length_append, List.length_map,
      List.length_singleton]
    omega
  have hle : ((List.map (fun x => (x, constEntry now)) mid)
      ++ [(kl, v)]).length ≤ C := by
    simp only [List.length_append, List.length_map, List.length_singleton]
    omega
  rw [List.map_cons, List.cons_append, List.cons_append, evictLoop,
    if_pos hcond, removeA_cons_self, hrm]
  rw [evictLoop_of_le _ _ _ hle]

/-- Helper: `put`s of `C + 1` distinct keys from a fresh manager leave in
the cache exactly the keys after the first — the final `put` overflows the
capacity and the eviction loop pops the front of the recency list, which
still holds the first-inserted key. -/
theorem foldPuts_overflow (cfg : CtxConfig) (now : Int) (k0 : String)
    (rest : List String) (hnd : (k0 :: rest).Nodup)
    (hlen : rest.length = cfg.max_cache_size) :
    (foldPuts cfg now (k0 :: rest)).cache
      = rest.map fun k => (k, constEntry now) := by
  rcases List.eq_nil_or_concat' rest with hr | ⟨mid, kl, hr⟩
  · subst hr
    simp only [foldPuts, List.foldl_cons, List.foldl_nil, putKey,
      save_context_ok, update_cache]
    rw [← hlen]
    simp [setA, pyRemove, evictLoop, removeA]
  · subst hr
    have hnd2 : ((k0 :: mid) ++ [kl]).Nodup := hnd
    have hklnotin : kl ∉ k0 :: mid := by
      intro hmem
      rw [List.nodup_append] at hnd2
      exact hnd2.2.2 hmem (List.mem_cons_self kl [])
    have hk0notin : k0 ∉ mid ++ [kl] := (List.nodup_cons.mp hnd).1
    have hfirst : (k0 :: mid).foldl (putKey cfg now) ⟨[], [], []⟩
        = stOf now (k0 :: mid) := by
      have hx := foldPuts_from cfg now (k0 :: mid) []
        (List.Nodup.of_append_left hnd2)
        (by
          simp only [List.nil_append, List.length_cons]
          simp only [List.length_append, List.length_singleton] at hlen
          omega)
      simpa using hx
    show (List.foldl (putKey cfg now) ⟨[], [], []⟩
        ((k0 :: mid) ++ [kl])).cache
      = (mid ++ [kl]).map fun k => (k, constEntry now)
    rw [List.foldl_append, hfirst, List.foldl_cons, List.foldl_nil]
    simp only [putKey, save_context_ok, update_cache, stOf]
    rw [setA_of_lookup_none _ _ _
        (lookupA_map_const_of_not_mem (constEntry now) (k0 :: mid) kl
          hklnotin),
      pyRemove_of_not_mem _ _ hklnotin]
    have hk0mid : k0 ∉ mid := fun hm =>
      hk0notin (List.mem_append.mpr (Or.inl hm))
    have hk0kl : ¬kl = k0 := by
      intro e
      exact hk0notin (List.mem_append.mpr (Or.inr (by simp [e])))
    rw [evict_final now cfg.max_cache_size k0 kl mid _ hk0mid hk0kl
      (by simpa using hlen)]
    simp [List.map_append, constEntry, putDoc]

/-- C9 amended: `put` refreshes recency and, on overflow past capacity `C`,
evicts the front of the recency order, so inserting `C + 1` distinct keys
into a fresh manager evicts exactly the first-inserted key and keeps all
later ones; a fresh-hit `get` (`load_context` on a valid cache entry),
however, does not refresh the recency order — it returns the entry's
(empty) message lookup and leaves the state untouched. -/
theorem lru_eviction_amended (cfg : CtxConfig) (now : Int) (k0 : String)
    (rest : List String) (hnd : (k0 :: rest).Nodup)
    (hlen : rest.length = cfg.max_cache_size)
    (cfg2 : CtxConfig) (now2 : Int) (sid : String) (st : CtxState)
    (e : CacheEntry) (hhit : lookupA sid st.cache = some e)
    (hfresh : now2 - e.timestamp < cfg2.cache_ttl) :
    lookupA k0 (foldPuts cfg now (k0 :: rest)).cache = none
    ∧ (rest.all fun k =>
        (lookupA k (foldPuts cfg now (k0 :: rest)).cache).isSome) = true
    ∧ load_context cfg2 now2 sid st = (CacheEntry.get_messages e, st) := by
  refine ⟨?_, ?_, ?_⟩
  · rw [foldPuts_overflow cfg now k0 rest hnd hlen]
    exact lookupA_map_const_of_not_mem _ _ _ (List.nodup_cons.mp hnd).1
  · simp only [foldPuts_overflow cfg now k0 rest hnd hlen]
    rw [List.all_eq_true]
    intro k hk
    rw [lookupA_map_const_of_mem _ _ _ hk]
    rfl
  · simp [load_context, hhit, is_cache_valid, hfresh]

/-- C9 amended witness: capacity 2, keys "a", "b", "c" — "a" is evicted,
"b" and "c" stay; and a fresh-hit `get` of "s" leaves `st9w` unchanged. -/
theorem lru_eviction_amended_witness :
    lookupA "a" (foldPuts cfg9 0 ("a" :: ["b", "c"])).cache = none
    ∧ (["b", "c"].all fun k =>
        (lookupA k (foldPuts cfg9 0 ("a" :: ["b", "c"])).cache).isSome)
      = true
    ∧ load_context cfg9 0 "s" st9w
      = (CacheEntry.get_messages (constEntry 0), st9w) :=
  lru_eviction_amended cfg9 0 "a" ["b", "c"] (by decide) (by decide)
    cfg9 0 "s" st9w (constEntry 0) (by decide) (by decide)

end CXO
